import Mathlib

/-!
# cbootanimation: video to boot-animation archive

A shallow embedding of `src/cbootanimation.cpp` and the proofs of the properties of its
resolution parser, its configuration validation, and above all its assembly pipeline
`createBootanimation` (descriptor `desc.txt`, partition of the extracted frames into
`part<N>` directories, archiving, cleanup).

Modelling conventions
* `std::string` is `String`; `int` is `Int` (the only place where the range of `int`
  matters is `std::stoi`, which checks it explicitly); the loop counters `part_index`
  and `frame_index` are `Nat`: `frame_index` never exceeds 400 and `part_index` is at
  most the number of directory entries divided by 400.
* C++ exceptions are the `Except.error` results of type `Exception`; a function that also
  changes the file system returns the file system it leaves behind next to its outcome,
  and `parseResolution`, which writes to its argument, returns with an exception the
  configuration as the throw leaves it.
* A run of `createBootanimation` starts on the file system it is given: what an earlier
  run has left in the workspace is still there. The field `created_parts` keeps the record
  of the `fs::create_directory` calls for part directories.
* The host (`fs::exists`, `access`, `system`, the `fs::path` queries) is a `World`
  record passed explicitly.
* A file-system call throws for the reasons the state of the file system gives (a missing
  entry, a missing directory); failures of the medium (permissions, a full disk) are not
  modelled. The names a directory enumerates are distinct; the theorems that depend on it
  say so (`List.Nodup`).
-/

namespace BootAnimation

/-! ## Data model -/

/-- The C++ exceptions the program can raise. -/
inductive Exception where
  /-- `std::runtime_error(what)`, thrown by the program itself. -/
  | runtime_error (what : String)
  /-- `std::invalid_argument`, thrown by `std::stoi` when no conversion can be done. -/
  | invalid_argument
  /-- `std::out_of_range`, thrown by `std::stoi` when the value does not fit an `int`. -/
  | out_of_range
  /-- `fs::filesystem_error`, thrown by a failing `fs::rename`. -/
  | filesystem_error
  deriving DecidableEq, Repr

deriving instance DecidableEq for Except

/-- The record `struct Config`, with its default member initialisers. -/
structure Config where
  input_video : String := ""
  output_path : String := ""
  resolution : String := ""
  fps : Int := 0
  quiet : Bool := false
  is_oos : Bool := false
  ffmpeg_path : String := "ffmpeg"
  zip_path : String := "zip"
  offset_x : Int := 0
  offset_y : Int := 0
  width : Int := 0
  height : Int := 0
  frame_format : String := "jpg"
  deriving DecidableEq, Repr

/-- Largest value of a 32-bit `int`. -/
def INT_MAX : Int := 2147483647

/-- Smallest value of a 32-bit `int`. -/
def INT_MIN : Int := -2147483648

/-! ## `std::stoi` -/

/-- The C locale `isspace`: space, `\t`, `\n`, `\v`, `\f`, `\r`. -/
def isspace (c : Char) : Bool :=
  c = ' ' ∨ c = '\t' ∨ c = '\n' ∨ c = '\x0b' ∨ c = '\x0c' ∨ c = '\r'

/-- The C locale `isdigit`. -/
def isdigit (c : Char) : Bool :=
  '0'.toNat ≤ c.toNat ∧ c.toNat ≤ '9'.toNat

/-- Value of a decimal digit character. -/
def digitVal (c : Char) : Nat := c.toNat - '0'.toNat

/-- Leading white space is discarded by `strtol`. -/
def skipSpace : List Char → List Char
  | [] => []
  | c :: cs => if isspace c then skipSpace cs else c :: cs

/-- The value of the longest prefix of decimal digits, continuing from `acc`;
conversion stops at the first character that is not a digit. -/
def readDigits : List Char → Nat → Nat
  | [], acc => acc
  | c :: cs, acc => if isdigit c then readDigits cs (acc * 10 + digitVal c) else acc

/-- The digits part of `std::stoi`, after white space and sign: at least one digit is
required (`std::invalid_argument` otherwise), and the signed value has to fit an `int`
(`std::out_of_range` otherwise). -/
def stoiDigits (neg : Bool) (ds : List Char) : Except Exception Int :=
  match ds with
  | [] => .error .invalid_argument
  | d :: _ =>
    if isdigit d then
      let v : Int := if neg then -(readDigits ds 0 : Int) else (readDigits ds 0 : Int)
      if v < INT_MIN ∨ INT_MAX < v then .error .out_of_range else .ok v
    else .error .invalid_argument

/-- The function `std::stoi(str)` in base 10: skip white space, take an optional sign,
convert the longest run of digits, ignore whatever follows. -/
def stoi (s : List Char) : Except Exception Int :=
  match skipSpace s with
  | [] => .error .invalid_argument
  | c :: cs =>
    if c = '-' then stoiDigits true cs
    else if c = '+' then stoiDigits false cs
    else stoiDigits false (c :: cs)

/-! ## `parseResolution` -/

/-- The call `s.find(c)`: position of the first `c`; `none` stands for `std::string::npos`. -/
def find : List Char → Char → Option Nat
  | [], _ => none
  | d :: ds, c => if d = c then some 0 else (find ds c).map (· + 1)

/-- The function `parseResolution`, which works on `config` by reference: split
`config.resolution` at the first `x`, convert the text before it by `std::stoi` and
assign `config.width`, then convert the text after it and assign `config.height`. The
`.ok` value is the configuration on a normal return; the `.error` value is the exception
thrown together with the configuration as the throw leaves it (with the new width already
in place when the second conversion is the one that throws). -/
def parseResolution (config : Config) : Except (Exception × Config) Config :=
  match find config.resolution.toList 'x' with
  | none =>
    .error
      (.runtime_error "Invalid resolution format. Use widthxheight (e.g., 1080x2400)", config)
  | some pos =>
    match stoi (config.resolution.toList.take pos) with
    | .error e => .error (e, config)
    | .ok width =>
      let config := { config with width := width }
      match stoi (config.resolution.toList.drop (pos + 1)) with
      | .error e => .error (e, config)
      | .ok height => .ok { config with height := height }

/-! ## The host -/

/-- What the program asks of its host. Every field is the answer of one library or system
call the source makes; the program itself is deterministic given these answers. -/
structure World where
  /-- The call `fs::current_path().string()`. -/
  current_path : String
  /-- The return value of `access(path, W_OK)`. -/
  access : String → Int
  /-- The call `fs::exists(path)`. -/
  file_exists : String → Bool
  /-- The call `fs::path(p).extension().string()`. -/
  extension : String → String
  /-- The call `fs::path(p).parent_path().string()`. -/
  parent_path : String → String
  /-- The call `fs::absolute(p).string()`. -/
  absolute : String → String
  /-- The exit status of `system(cmd)`. -/
  system : String → Int
  /-- The entries `fs::directory_iterator(frames_dir)` enumerates, in its order, once
  `system(cmd)` has run for the frame extraction command `cmd`. -/
  extracted : String → List String
  /-- Whether `std::ofstream(path)` opens. -/
  ofstream : String → Bool

/-- The function `checkCommand`. -/
def checkCommand (w : World) (cmd : String) : Bool :=
  w.system ("command -v " ++ cmd ++ " >/dev/null 2>&1") = 0

/-- The function `isWritable`. -/
def isWritable (w : World) (path : String) : Bool :=
  w.access path = 0

/-- The function `getTmpDir`. -/
def getTmpDir (w : World) (config : Config) : Except Exception String :=
  if isWritable w w.current_path then .ok (w.current_path ++ "/bootanim")
  else
    let parent := w.parent_path config.output_path
    if ¬ parent.isEmpty ∧ isWritable w parent then .ok (parent ++ "/bootanim")
    else .error (.runtime_error "No writable directory found for temporary files")

/-! ## `validateConfig` -/

/-- The default of `validateConfig` for the output path: `bootanimation.zip` when none is
given, and that file under the given path when the path has no extension. -/
def defaultOutputPath (w : World) (config : Config) : Config :=
  if config.output_path.isEmpty then { config with output_path := "bootanimation.zip" }
  else if (w.extension config.output_path).isEmpty then
    { config with output_path := config.output_path ++ "/bootanimation.zip" }
  else config

/-- The function `validateConfig`; the checks run in the order of the source and the first
failing one throws. The validated (and completed) configuration is the `.ok` value. -/
def validateConfig (w : World) (config : Config) : Except Exception Config :=
  if config.input_video.isEmpty then
    .error (.runtime_error "Input video path is required (-i)")
  else if ¬ w.file_exists config.input_video then
    .error (.runtime_error "Input video file does not exist")
  else
    let config := defaultOutputPath w config
    if config.resolution.isEmpty then
      .error (.runtime_error "Resolution is required (-r)")
    else
      match parseResolution config with
      | .error (e, _) => .error e
      | .ok config =>
        if config.fps ≤ 0 then
          .error (.runtime_error "FPS must be positive (-f)")
        else if config.frame_format ≠ "jpg" ∧ config.frame_format ≠ "png" then
          .error (.runtime_error "Frame format must be either 'jpg' or 'png'")
        else if ¬ w.file_exists config.ffmpeg_path ∧ ¬ checkCommand w "ffmpeg" then
          .error (.runtime_error "ffmpeg not found in PATH and custom path not valid")
        else if ¬ w.file_exists config.zip_path ∧ ¬ checkCommand w "zip" then
          .error (.runtime_error "zip not found in PATH and custom path not valid")
        else .ok config

/-! ## The file system of one run -/

/-- The directory `result`: the descriptor `desc.txt` (when it has been opened, with the
text written so far) and the `part<N>` directories, each a pair of its number `N` and the
names of the files moved into it, in the order they arrived. -/
structure ResultTree where
  desc_txt : Option String := none
  parts : List (Nat × List String) := []
  deriving DecidableEq, Repr

/-- The part of the file system the pipeline touches. -/
structure FileSystem where
  /-- Whether the scratch directory `bootanim` (with `frames` and `result`) exists. -/
  workspace : Bool := false
  /-- The entries of `bootanim/frames`, in enumeration order. -/
  frames : List String := []
  /-- The tree under `bootanim/result`. -/
  result : ResultTree := {}
  /-- The tree the archiver was run on by `system(zip_cmd)`, if it was run. -/
  zip_input : Option ResultTree := none
  /-- A record of the run, not a part of the disk: the numbers `k` of the directories
  `part<k>` that `fs::create_directory` has been called for, in the order of the calls. -/
  created_parts : List Nat := []
  deriving DecidableEq, Repr

/-- The two calls `fs::create_directories(frames_dir)`, `fs::create_directories(result_dir)`. -/
def create_directories (fs : FileSystem) : FileSystem :=
  { fs with workspace := true }

/-- The call `fs::create_directory(result_dir + "/part" + std::to_string(k))`: a new empty
directory, unless a directory of that name is there already, which is then left as it is.
The call is entered in `created_parts`. -/
def create_directory (k : Nat) (fs : FileSystem) : FileSystem :=
  if fs.result.parts.any (fun d => d.1 = k) then
    { fs with created_parts := fs.created_parts ++ [k] }
  else
    { fs with
      result := { fs.result with parts := fs.result.parts ++ [(k, [])] }
      created_parts := fs.created_parts ++ [k] }

/-- The call `fs::rename(entry.path(), dest_dir + "/" + entry.path().filename().string())`
with `dest_dir` the directory `part<k>`: the entry leaves `frames` and arrives in `part<k>`
under the same name, behind the files that are there; a file of that name that is there
already is replaced and keeps its place. It throws when the entry or the target directory
is missing. -/
def rename (entry : String) (k : Nat) (fs : FileSystem) : Except Exception FileSystem :=
  if entry ∈ fs.frames ∧ fs.result.parts.any (fun d => d.1 = k) then
    .ok { fs with
      frames := fs.frames.erase entry
      result := { fs.result with
        parts := fs.result.parts.map (fun d =>
          if d.1 = k then (d.1, if entry ∈ d.2 then d.2 else d.2 ++ [entry]) else d) } }
  else .error .filesystem_error

/-- The call `fs::remove_all(tmp_dir)`. -/
def remove_all (fs : FileSystem) : FileSystem :=
  { fs with workspace := false, frames := [], result := {} }

/-! ## `createBootanimation` -/

/-- The constant `max_frames`. -/
def max_frames : Nat := 400

/-- The variables of the frame loop, with the file system. -/
structure LoopState where
  part_index : Nat
  frame_index : Nat
  fs : FileSystem
  deriving DecidableEq, Repr

/-- The body of the frame loop for one directory entry. -/
def moveFrame (st : LoopState) (entry : String) : Except Exception LoopState :=
  match rename entry st.part_index st.fs with
  | .error e => .error e
  | .ok fs =>
    let frame_index := st.frame_index + 1
    if frame_index ≥ max_frames then
      .ok { part_index := st.part_index + 1, frame_index := 0,
            fs := create_directory (st.part_index + 1) fs }
    else .ok { st with frame_index := frame_index, fs := fs }

/-- The frame loop `for (const auto& entry : fs::directory_iterator(frames_dir))` over the
enumerated entries: every entry of the directory is visited once, in enumeration order
(an entry only leaves the directory in the turn that visits it). It ends with the state
after the last entry, or with the state in which an exception left the loop. -/
def frameLoop : List String → LoopState → LoopState × Except Exception Unit
  | [], st => (st, .ok ())
  | entry :: rest, st =>
    match moveFrame st entry with
    | .error e => (st, .error e)
    | .ok st => frameLoop rest st

/-- The frame processing of `createBootanimation`: the directory `part0` is created, then
the frame loop runs over the entries of `frames` with both counters at zero. -/
def partitionFrames (fs : FileSystem) : LoopState × Except Exception Unit :=
  let fs := create_directory 0 fs
  frameLoop fs.frames { part_index := 0, frame_index := 0, fs := fs }

/-- The first line of `desc.txt`. -/
def globalLine (config : Config) : String :=
  if config.is_oos then
    "g " ++ toString config.width ++ " " ++ toString config.height ++ " "
      ++ toString config.offset_x ++ " " ++ toString config.offset_y ++ " "
      ++ toString config.fps ++ "\n"
  else
    toString config.width ++ " " ++ toString config.height ++ " " ++ toString config.fps ++ "\n"

/-- The line `desc_file << "c 1 0 part" << i << "\n"`. -/
def partLine (i : Nat) : String :=
  "c 1 0 part" ++ toString i ++ "\n"

/-- The loop `for (int i = 0; i <= part_index; i++)` appending the part lines to the text
written so far. -/
def writeParts (part_index : Nat) (text : String) : String :=
  (List.range (part_index + 1)).foldl (fun text i => text ++ partLine i) text

/-- The string `ffmpeg_cmd`. -/
def ffmpeg_cmd (config : Config) (frames_dir : String) : String :=
  let format_options :=
    if config.frame_format = "jpg" then " -qscale:v 2"
    else if config.frame_format = "png" then " -compression_level 3"
    else ""
  let cmd := config.ffmpeg_path ++ " -i \"" ++ config.input_video ++
    "\" -vf scale=" ++ toString config.width ++ ":" ++
    toString config.height ++ format_options ++
    " \"" ++ frames_dir ++ "/%06d." ++ config.frame_format ++ "\""
  if config.quiet then cmd ++ " > /dev/null 2>&1" else cmd

/-- The string `zip_cmd`. -/
def zip_cmd (w : World) (config : Config) (result_dir : String) : String :=
  let cmd := "cd \"" ++ result_dir ++ "\" && " ++ config.zip_path ++
    " -r -0 \"" ++ w.absolute config.output_path ++ "\" ."
  if config.quiet then cmd ++ " > /dev/null 2>&1" else cmd

/-- The function `createBootanimation`, run on the file system `fs`: the file system it
leaves behind, and `.ok ()` for a normal return or the exception thrown. -/
def createBootanimation (w : World) (config : Config) (fs : FileSystem) :
    FileSystem × Except Exception Unit :=
  match getTmpDir w config with
  | .error e => (fs, .error e)
  | .ok tmp_dir =>
    let frames_dir := tmp_dir ++ "/frames"
    let result_dir := tmp_dir ++ "/result"
    let fs := create_directories fs
    let cmd := ffmpeg_cmd config frames_dir
    let fs := { fs with frames := w.extracted cmd }
    if w.system cmd ≠ 0 then
      (fs, .error (.runtime_error "Failed to generate frames using ffmpeg"))
    else if ¬ w.ofstream (result_dir ++ "/desc.txt") then
      (fs, .error (.runtime_error "Failed to create desc.txt"))
    else
      let fs := { fs with result := { fs.result with desc_txt := some (globalLine config) } }
      match partitionFrames fs with
      | (st, .error e) => (st.fs, .error e)
      | (st, .ok _) =>
        let fs := { st.fs with
          result := { st.fs.result with
            desc_txt := some (writeParts st.part_index (globalLine config)) } }
        let fs := { fs with zip_input := some fs.result }
        if w.system (zip_cmd w config result_dir) ≠ 0 then
          (fs, .error (.runtime_error "Failed to create zip file"))
        else (remove_all fs, .ok ())

/-! ## Vocabulary of the statements -/

/-- The value of a string of digits read left to right, continuing from `acc`. -/
def digitsValue (ds : List Char) (acc : Nat) : Nat :=
  ds.foldl (fun a c => a * 10 + digitVal c) acc

/-- A component `std::stoi` converts: after optional white space and one optional sign it
starts with a decimal digit. -/
def startsWithNumber (s : List Char) : Bool :=
  match s.dropWhile isspace with
  | [] => false
  | c :: cs => if c = '-' ∨ c = '+' then (cs.head?.map isdigit).getD false else isdigit c

/-- The width component of a resolution string: the text before the first `x`. -/
def widthText (resolution : String) : List Char :=
  resolution.toList.takeWhile (fun c => c ≠ 'x')

/-- The height component of a resolution string: the text after the first `x`. -/
def heightText (resolution : String) : List Char :=
  (resolution.toList.dropWhile (fun c => c ≠ 'x')).tail

/-- The `k`-th run of `max_frames` consecutive frames of a frame sequence. -/
def chunk (frames : List String) (k : Nat) : List String :=
  (frames.drop (max_frames * k)).take max_frames

/-- The part directories the frame loop leaves for a frame sequence: directories
`part0` to `part⌊n / max_frames⌋`, directory `k` holding the `k`-th run. -/
def partsOf (frames : List String) : List (Nat × List String) :=
  (List.range (frames.length / max_frames + 1)).map (fun k => (k, chunk frames k))

/-- The variables of the frame loop once the frames `p` have been moved and the entries
`rest` are still to come, in a run that entered the loop on the file system `fs0`. -/
def stateAfter (fs0 : FileSystem) (p rest : List String) : LoopState :=
  { part_index := p.length / max_frames
    frame_index := p.length % max_frames
    fs := { fs0 with
      frames := rest
      result := { fs0.result with parts := partsOf p }
      created_parts := fs0.created_parts ++ List.range (p.length / max_frames + 1) } }

/-- The tree under `result` once all frames are moved and `desc.txt` is closed. -/
def assembled (config : Config) (frames : List String) : ResultTree :=
  { desc_txt := some (writeParts (frames.length / max_frames) (globalLine config))
    parts := partsOf frames }

/-- The first line of a text: what stands before its first newline. -/
def firstLine (text : String) : String :=
  String.mk (text.toList.takeWhile (fun c => c ≠ '\n'))

/-! ## Sample hosts and inputs -/

/-- A host on which everything works: the current directory is writable, the extraction
leaves the given frames, every command succeeds. -/
def goodWorld (frames : List String) : World where
  current_path := "/home/user"
  access := fun _ => 0
  file_exists := fun _ => true
  extension := fun _ => ".zip"
  parent_path := fun _ => "/sdcard"
  absolute := fun p => p
  system := fun _ => 0
  extracted := fun _ => frames
  ofstream := fun _ => true

/-- The name the extraction command gives the frame behind `i` others: its number `i + 1`
in at least six digits (`%06d`), with the extension `.jpg`. -/
def frameName (i : Nat) : String :=
  String.mk (List.replicate (6 - (toString (i + 1)).length) '0') ++ toString (i + 1) ++ ".jpg"

/-- The names the extraction command gives `n` frames: `000001.jpg`, `000002.jpg`, ... -/
def frameNames (n : Nat) : List String :=
  (List.range n).map frameName

/-- A configuration as `main` hands it to `validateConfig`. -/
def rawConfig : Config :=
  { input_video := "in.mp4", output_path := "/sdcard/bootanimation.zip",
    resolution := "1080x2400", fps := 30 }

/-- A configuration as `validateConfig` accepts it: 1080x2400 at 30 frames per second. -/
def sampleConfig : Config :=
  { input_video := "in.mp4", output_path := "/sdcard/bootanimation.zip",
    resolution := "1080x2400", fps := 30, width := 1080, height := 2400 }

/-- A host whose extraction command fails after it has written one frame. -/
def extractionFails : World :=
  { goodWorld ["000001.jpg"] with system := fun _ => 1 }

/-- A host on which `desc.txt` cannot be opened. -/
def descFails : World :=
  { goodWorld (frameNames 2) with ofstream := fun _ => false }

/-- A host whose archiver fails: every command but the extraction exits with status 1. -/
def zipFails : World :=
  { goodWorld (frameNames 2) with
    system := fun cmd =>
      if cmd = ffmpeg_cmd sampleConfig "/home/user/bootanim/frames" then 0 else 1 }

/-! ## Decimal numerals -/

theorem digitChar_spec : ∀ k, k < 10 →
    isdigit (Nat.digitChar k) = true ∧ digitVal (Nat.digitChar k) = k := by
  decide

theorem isdigit_ne {c : Char} (h : isdigit c = true) :
    c ≠ 'x' ∧ c ≠ '-' ∧ c ≠ '+' ∧ c ≠ '\n' ∧ isspace c = false := by
  simp only [isdigit, Bool.decide_and, Bool.and_eq_true, decide_eq_true_eq] at h
  refine ⟨?_, ?_, ?_, ?_, ?_⟩
  · rintro rfl; revert h; decide
  · rintro rfl; revert h; decide
  · rintro rfl; revert h; decide
  · rintro rfl; revert h; decide
  · simp only [isspace, Bool.decide_or, Bool.or_eq_false_iff, decide_eq_false_iff_not]
    refine ⟨?_, ?_, ?_, ?_, ?_, ?_⟩ <;> (rintro rfl; revert h; decide)

/-- The numeral `Nat.toDigitsCore` puts in front of `ds`: a non-empty string of digits whose
value is `n`. -/
theorem toDigitsCore_spec (fuel : Nat) : ∀ (n : Nat) (ds : List Char), n < fuel →
    ∃ pre, Nat.toDigitsCore 10 fuel n ds = pre ++ ds ∧ pre ≠ [] ∧
      (∀ c ∈ pre, isdigit c = true) ∧
      ∀ acc, digitsValue pre acc = acc * 10 ^ pre.length + n := by
  induction fuel with
  | zero => intro n ds h; omega
  | succ fuel ih =>
    intro n ds h
    have hd := digitChar_spec (n % 10) (Nat.mod_lt _ (by decide))
    by_cases h0 : n / 10 = 0
    · refine ⟨[Nat.digitChar (n % 10)], ?_, by simp, ?_, ?_⟩
      · simp [Nat.toDigitsCore, h0]
      · intro c hc
        rw [List.mem_singleton] at hc
        rw [hc]; exact hd.1
      · intro acc
        simp only [digitsValue, List.foldl_cons, List.foldl_nil, hd.2, List.length_singleton,
          pow_one]
        omega
    · obtain ⟨pre, hpre, _, hdig, hval⟩ :=
        ih (n / 10) (Nat.digitChar (n % 10) :: ds) (by omega)
      refine ⟨pre ++ [Nat.digitChar (n % 10)], ?_, by simp, ?_, ?_⟩
      · simp [Nat.toDigitsCore, h0, hpre]
      · intro c hc
        rw [List.mem_append, List.mem_singleton] at hc
        rcases hc with hc | hc
        · exact hdig c hc
        · rw [hc]; exact hd.1
      · intro acc
        have hv := hval acc
        simp only [digitsValue] at hv
        simp only [digitsValue, List.foldl_append, List.foldl_cons, List.foldl_nil, hv, hd.2,
          List.length_append, List.length_singleton, pow_succ]
        have := Nat.div_add_mod n 10
        nlinarith [this]

/-- The decimal numeral of `n`: a non-empty string of digits of value `n`. -/
theorem toDigits_spec (n : Nat) :
    Nat.toDigits 10 n ≠ [] ∧ (∀ c ∈ Nat.toDigits 10 n, isdigit c = true) ∧
      digitsValue (Nat.toDigits 10 n) 0 = n := by
  obtain ⟨pre, hpre, hne, hdig, hval⟩ := toDigitsCore_spec (n + 1) n [] (by omega)
  simp only [List.append_nil] at hpre
  have hv := hval 0
  simp only [zero_mul, zero_add] at hv
  unfold Nat.toDigits
  rw [hpre]
  exact ⟨hne, hdig, hv⟩

theorem toList_toString_nat (n : Nat) : (toString n).toList = Nat.toDigits 10 n := rfl

/-- Reading digits runs through a string of digits. -/
theorem readDigits_append (l r : List Char) (acc : Nat) (h : ∀ c ∈ l, isdigit c = true) :
    readDigits (l ++ r) acc = readDigits r (digitsValue l acc) := by
  induction l generalizing acc with
  | nil => rfl
  | cons c l ih =>
    have hc := h c (List.mem_cons_self c l)
    simp only [List.cons_append, readDigits, hc, if_true, List.append_eq]
    rw [ih _ (fun d hd => h d (List.mem_cons_of_mem c hd))]
    rfl

/-- The function `std::stoi` reads back the decimal numeral of a number that fits an `int`. -/
theorem stoi_toDigits (n : Nat) (h : (n : Int) ≤ INT_MAX) :
    stoi (Nat.toDigits 10 n) = .ok (n : Int) := by
  obtain ⟨hne, hdig, hval⟩ := toDigits_spec n
  have hread : readDigits (Nat.toDigits 10 n) 0 = n := by
    have := readDigits_append (Nat.toDigits 10 n) [] 0 hdig
    rw [List.append_nil] at this
    rw [this, hval]
    rfl
  cases hds : Nat.toDigits 10 n with
  | nil => exact absurd hds hne
  | cons c cs =>
    have hc : isdigit c = true := hdig c (by rw [hds]; exact List.mem_cons_self c cs)
    obtain ⟨_, hminus, hplus, _, hsp⟩ := isdigit_ne hc
    rw [hds] at hread
    have hrange : ¬ ((n : Int) < INT_MIN ∨ INT_MAX < (n : Int)) := by
      unfold INT_MIN INT_MAX at *
      omega
    simp only [stoi, skipSpace, hsp, Bool.false_eq_true, if_false, hminus, hplus, stoiDigits, hc,
      if_true, hread, hrange]

/-- The call `find('x')` on a string that starts with a string of digits followed by `x`. -/
theorem find_digits_x (l r : List Char) (h : ∀ c ∈ l, isdigit c = true) :
    find (l ++ 'x' :: r) 'x' = some l.length := by
  induction l with
  | nil => simp [find]
  | cons c l ih =>
    have hc := (isdigit_ne (h c (List.mem_cons_self c l))).1
    simp only [List.cons_append, find, hc, if_false, List.append_eq,
      ih (fun d hd => h d (List.mem_cons_of_mem c hd)), Option.map_some', List.length_cons]

/-! ## Resolution strings -/

theorem skipSpace_eq_dropWhile (s : List Char) : skipSpace s = s.dropWhile isspace := by
  induction s with
  | nil => rfl
  | cons c cs ih =>
    by_cases h : isspace c = true
    · simp [skipSpace, List.dropWhile, h, ih]
    · simp [skipSpace, List.dropWhile, h]

/-- Without a leading number `std::stoi` throws `std::invalid_argument`. -/
theorem stoi_of_not_startsWithNumber (s : List Char) (h : startsWithNumber s = false) :
    stoi s = .error .invalid_argument := by
  unfold startsWithNumber at h
  unfold stoi
  rw [skipSpace_eq_dropWhile]
  cases hs : s.dropWhile isspace with
  | nil => rfl
  | cons c cs =>
    rw [hs] at h
    simp only at h
    by_cases hm : c = '-'
    · subst hm
      cases cs with
      | nil => rfl
      | cons d ds =>
        have hd : isdigit d = false := by simpa using h
        simp [stoiDigits, hd]
    · by_cases hp : c = '+'
      · subst hp
        cases cs with
        | nil => rfl
        | cons d ds =>
          have hd : isdigit d = false := by simpa using h
          simp [stoiDigits, hd]
      · have hd : isdigit c = false := by simpa [hm, hp] using h
        simp [hm, hp, stoiDigits, hd]

/-- The call `find('x')` against the components of the resolution string. -/
theorem find_x_spec (l : List Char) :
    (find l 'x' = none ∧ 'x' ∉ l) ∨
    (∃ pos, find l 'x' = some pos ∧ 'x' ∈ l ∧
      l.take pos = l.takeWhile (fun c => c ≠ 'x') ∧
      l.drop (pos + 1) = (l.dropWhile (fun c => c ≠ 'x')).tail) := by
  induction l with
  | nil => left; simp [find]
  | cons d ds ih =>
    by_cases hd : d = 'x'
    · right
      exact ⟨0, by simp [find, hd], by simp [hd], by simp [List.takeWhile, hd],
        by simp [List.dropWhile, hd]⟩
    · rcases ih with ⟨h1, h2⟩ | ⟨pos, h1, h2, h3, h4⟩
      · left
        refine ⟨by simp [find, hd, h1], ?_⟩
        simp only [List.mem_cons, not_or]
        exact ⟨fun h => hd h.symm, h2⟩
      · right
        refine ⟨pos + 1, by simp [find, hd, h1], by simp [h2], ?_, ?_⟩
        · simp [List.takeWhile, hd, h3]
        · simp [List.dropWhile, hd, h4]

/-- A value `std::stoi` returns fits an `int`. -/
theorem stoiDigits_range (neg : Bool) (ds : List Char) (v : Int)
    (h : stoiDigits neg ds = .ok v) : INT_MIN ≤ v ∧ v ≤ INT_MAX := by
  unfold stoiDigits at h
  split at h
  · cases h
  · split at h
    · split at h
      all_goals
        simp only at h
        split at h
        · cases h
        · rename_i hr
          injection h with h
          subst h
          simp only [not_or, not_lt] at hr
          exact hr
    · cases h

theorem stoi_range (s : List Char) (v : Int) (h : stoi s = .ok v) :
    INT_MIN ≤ v ∧ v ≤ INT_MAX := by
  unfold stoi at h
  split at h
  · simp at h
  · split at h
    · exact stoiDigits_range _ _ _ h
    · split at h <;> exact stoiDigits_range _ _ _ h

/-- What a successful `parseResolution` returns. -/
theorem parseResolution_ok (config config' : Config) (h : parseResolution config = .ok config') :
    config' = { config with width := config'.width, height := config'.height } ∧
    stoi (widthText config.resolution) = .ok config'.width ∧
    stoi (heightText config.resolution) = .ok config'.height := by
  unfold parseResolution at h
  unfold widthText heightText
  rcases find_x_spec config.resolution.toList with ⟨h1, _⟩ | ⟨pos, h1, _, h3, h4⟩
  · simp only [h1] at h
    simp at h
  · simp only [h1] at h
    rw [← h3, ← h4]
    cases hw : stoi (List.take pos config.resolution.toList) with
    | error e => simp only [hw] at h; cases h
    | ok width =>
      cases hh : stoi (List.drop (pos + 1) config.resolution.toList) with
      | error e => simp only [hw, hh] at h; cases h
      | ok height =>
        simp only [hw, hh] at h
        injection h with h
        subst h
        exact ⟨rfl, rfl, rfl⟩

/-! ## The frame loop -/

theorem chunk_snoc_of_lt (p : List String) (f : String) (k : Nat)
    (hk : k < p.length / max_frames) : chunk (p ++ [f]) k = chunk p k := by
  unfold max_frames at hk
  unfold chunk max_frames
  have h1 : 400 * k ≤ p.length := by omega
  rw [List.drop_append_of_le_length h1]
  apply List.take_append_of_le_length
  rw [List.length_drop]
  omega

theorem chunk_snoc_last (p : List String) (f : String) :
    chunk (p ++ [f]) (p.length / max_frames) = chunk p (p.length / max_frames) ++ [f] := by
  unfold chunk max_frames
  have h1 : 400 * (p.length / 400) ≤ p.length := by omega
  rw [List.drop_append_of_le_length h1]
  have h2 : (List.drop (400 * (p.length / 400)) p).length ≤ 400 := by
    rw [List.length_drop]; omega
  rw [List.take_of_length_le h2, List.take_of_length_le]
  simp only [List.length_append, List.length_singleton, List.length_drop]
  omega

theorem chunk_eq_nil (p : List String) (k : Nat) (hk : p.length ≤ max_frames * k) :
    chunk p k = [] := by
  unfold chunk
  rw [List.drop_eq_nil_of_le hk]
  rfl

theorem any_partsOf (p : List String) (k : Nat) :
    (partsOf p).any (fun d => decide (d.1 = k)) = decide (k ≤ p.length / max_frames) := by
  rw [Bool.eq_iff_iff, List.any_eq_true]
  simp only [partsOf, List.mem_map, List.mem_range, decide_eq_true_eq]
  constructor
  · rintro ⟨d, ⟨j, hj, rfl⟩, rfl⟩
    omega
  · intro h
    exact ⟨(k, chunk p k), ⟨k, by omega, rfl⟩, rfl⟩

theorem mem_of_mem_chunk (p : List String) (k : Nat) (f : String) (h : f ∈ chunk p k) :
    f ∈ p :=
  List.mem_of_mem_drop (List.mem_of_mem_take h)

/-- Moving one more frame into the current part, when the part does not fill up. -/
theorem partsOf_snoc_same (p : List String) (f : String) (hf : f ∉ p)
    (h : p.length % max_frames + 1 < max_frames) :
    (partsOf p).map (fun d =>
        if d.1 = p.length / max_frames then (d.1, if f ∈ d.2 then d.2 else d.2 ++ [f]) else d)
      = partsOf (p ++ [f]) := by
  have hq : (p ++ [f]).length / max_frames = p.length / max_frames := by
    unfold max_frames at h ⊢
    simp only [List.length_append, List.length_singleton]
    omega
  unfold partsOf
  rw [hq, List.map_map]
  apply List.map_congr_left
  intro k hk
  rw [List.mem_range] at hk
  simp only [Function.comp]
  by_cases hkq : k = p.length / max_frames
  · subst hkq
    have hmem : f ∉ chunk p (p.length / max_frames) := fun hm => hf (mem_of_mem_chunk p _ f hm)
    simp only [if_true, hmem, if_false]
    rw [chunk_snoc_last]
  · simp only [hkq, if_false]
    rw [chunk_snoc_of_lt p f k (by omega)]

/-- Moving the frame that fills the current part, and opening the next part. -/
theorem partsOf_snoc_next (p : List String) (f : String) (hf : f ∉ p)
    (h : p.length % max_frames + 1 = max_frames) :
    (partsOf p).map (fun d =>
        if d.1 = p.length / max_frames then (d.1, if f ∈ d.2 then d.2 else d.2 ++ [f]) else d)
      ++ [(p.length / max_frames + 1, [])] = partsOf (p ++ [f]) := by
  have hq : (p ++ [f]).length / max_frames = p.length / max_frames + 1 := by
    unfold max_frames at h ⊢
    simp only [List.length_append, List.length_singleton]
    omega
  have hlast : chunk (p ++ [f]) (p.length / max_frames + 1) = [] := by
    apply chunk_eq_nil
    unfold max_frames at h ⊢
    simp only [List.length_append, List.length_singleton]
    omega
  have hR : partsOf (p ++ [f]) =
      (List.range (p.length / max_frames + 1)).map (fun k => (k, chunk (p ++ [f]) k))
        ++ [(p.length / max_frames + 1, [])] := by
    unfold partsOf
    rw [hq, List.range_succ, List.map_append, List.map_singleton, hlast]
  rw [hR]
  congr 1
  unfold partsOf
  rw [List.map_map]
  apply List.map_congr_left
  intro k hk
  rw [List.mem_range] at hk
  simp only [Function.comp]
  by_cases hkq : k = p.length / max_frames
  · subst hkq
    have hmem : f ∉ chunk p (p.length / max_frames) := fun hm => hf (mem_of_mem_chunk p _ f hm)
    simp only [if_true, hmem, if_false]
    rw [chunk_snoc_last]
  · simp only [hkq, if_false]
    rw [chunk_snoc_of_lt p f k (by omega)]

/-- A move changes no directory name. -/
theorem any_key_map_snoc (l : List (Nat × List String)) (q k : Nat) (f : String) :
    (l.map (fun d => if d.1 = q then (d.1, if f ∈ d.2 then d.2 else d.2 ++ [f]) else d)).any
        (fun d => decide (d.1 = k))
      = l.any (fun d => decide (d.1 = k)) := by
  induction l with
  | nil => rfl
  | cons d l ih =>
    simp only [List.map_cons, List.any_cons, ih]
    by_cases h : d.1 = q <;> simp [h]

/-- One turn of the frame loop keeps the loop invariant `stateAfter`, for an entry whose
name is not among the frames moved before. -/
theorem moveFrame_stateAfter (fs0 : FileSystem) (p rest : List String) (f : String)
    (hf : f ∉ p) :
    moveFrame (stateAfter fs0 p (f :: rest)) f = .ok (stateAfter fs0 (p ++ [f]) rest) := by
  have hany := any_partsOf p (p.length / max_frames)
  simp only [le_refl, decide_True] at hany
  have hnone : (List.map (fun d =>
      if d.1 = p.length / max_frames then (d.1, if f ∈ d.2 then d.2 else d.2 ++ [f]) else d)
      (partsOf p)).any (fun d => decide (d.1 = p.length / max_frames + 1)) = false := by
    rw [any_key_map_snoc, any_partsOf]
    simp
  by_cases h : p.length % max_frames + 1 ≥ max_frames
  · have h' : p.length % max_frames + 1 = max_frames := by
      unfold max_frames at h ⊢; omega
    have hidx : (p ++ [f]).length / max_frames = p.length / max_frames + 1 ∧
        (p ++ [f]).length % max_frames = 0 := by
      unfold max_frames at h' ⊢
      simp only [List.length_append, List.length_singleton]
      omega
    simp only [moveFrame, rename, stateAfter, create_directory, List.mem_cons, true_or, hany,
      and_self, if_true, h, List.erase_cons_head, hnone, Bool.false_eq_true, if_false,
      partsOf_snoc_next p f hf h', hidx.1, hidx.2, List.append_assoc,
      ← List.range_succ]
  · have h' : p.length % max_frames + 1 < max_frames := by omega
    have hidx : (p ++ [f]).length / max_frames = p.length / max_frames ∧
        (p ++ [f]).length % max_frames = p.length % max_frames + 1 := by
      unfold max_frames at h' ⊢
      simp only [List.length_append, List.length_singleton]
      omega
    simp only [moveFrame, rename, stateAfter, List.mem_cons, true_or, hany,
      and_self, if_true, h, List.erase_cons_head, if_false,
      partsOf_snoc_same p f hf h', hidx.1, hidx.2]

/-- The frame loop over entries of distinct names never throws on a run that entered it
with the directory `part0` alone, and it ends in the state `stateAfter` of all frames. -/
theorem frameLoop_stateAfter (fs0 : FileSystem) (rest p : List String)
    (hnd : (p ++ rest).Nodup) :
    frameLoop rest (stateAfter fs0 p rest) = (stateAfter fs0 (p ++ rest) [], .ok ()) := by
  induction rest generalizing p with
  | nil => simp [frameLoop]
  | cons f rest ih =>
    have hf : f ∉ p := by
      intro hm
      have := List.nodup_append.1 hnd
      exact this.2.2 hm (List.mem_cons_self f rest)
    have hnd' : ((p ++ [f]) ++ rest).Nodup := by
      simpa [List.append_assoc] using hnd
    simp only [frameLoop, moveFrame_stateAfter fs0 p rest f hf]
    rw [ih (p ++ [f]) hnd']
    simp

theorem partsOf_nil : partsOf [] = [(0, [])] := by
  decide

/-- The frame processing of entries of distinct names on a file system without left-over
part directories: it never throws, it empties `frames`, and it leaves exactly the
directories `partsOf`, having called `fs::create_directory` once for each. -/
theorem partitionFrames_eq (fs : FileSystem) (hfresh : fs.result.parts = [])
    (hnd : fs.frames.Nodup) :
    partitionFrames fs = (stateAfter fs fs.frames [], .ok ()) := by
  obtain ⟨ws, fr, ⟨desc, parts⟩, zi, cr⟩ := fs
  simp only at hfresh hnd
  subst hfresh
  have hloop := frameLoop_stateAfter
    { workspace := ws, frames := fr, result := { desc_txt := desc, parts := [] },
      zip_input := zi, created_parts := cr } fr [] (by simpa using hnd)
  have hr1 : List.range 1 = [0] := rfl
  simp only [stateAfter, partsOf_nil, List.length_nil, Nat.zero_div, Nat.zero_mod,
    List.nil_append, zero_add, hr1] at hloop
  simp only [partitionFrames, create_directory, List.any_nil, Bool.false_eq_true, if_false,
    List.nil_append, hloop, stateAfter]

/-! ## The frame loop on any workspace -/

/-- On any file system in which the current part directory exists, the frame loop over the
entries of `frames` never throws. It empties `frames`, leaves the counters at the quotient
and the remainder of the number of frames handled, calls `fs::create_directory` for just
the part numbers it moves on to, keeps every directory that was there and has a directory
for every part number it called for, and leaves the descriptor and the rest alone. -/
theorem frameLoop_completes (l : List String) : ∀ (st : LoopState),
    st.fs.frames = l →
    st.fs.result.parts.any (fun d => decide (d.1 = st.part_index)) = true →
    st.frame_index < max_frames →
    ∃ parts, frameLoop l st =
      ({ part_index := st.part_index + (st.frame_index + l.length) / max_frames
         frame_index := (st.frame_index + l.length) % max_frames
         fs := { st.fs with
           frames := []
           result := { st.fs.result with parts := parts }
           created_parts := st.fs.created_parts ++
             List.range' (st.part_index + 1) ((st.frame_index + l.length) / max_frames) } },
       .ok ()) ∧
      ∀ k, (st.fs.result.parts.any (fun d => decide (d.1 = k)) = true ∨
          k ∈ List.range' (st.part_index + 1) ((st.frame_index + l.length) / max_frames)) →
        parts.any (fun d => decide (d.1 = k)) = true := by
  induction l with
  | nil =>
    intro st hfr _ hlt
    obtain ⟨pi, fi, ⟨ws, fr, ⟨desc, parts⟩, zi, cr⟩⟩ := st
    simp only at hfr hlt
    subst hfr
    have h0 : fi / max_frames = 0 := Nat.div_eq_of_lt hlt
    have h1 : fi % max_frames = fi := Nat.mod_eq_of_lt hlt
    refine ⟨parts, ?_, ?_⟩
    · simp [frameLoop, h0, h1]
    · intro k hk
      simpa [h0] using hk
  | cons f rest ih =>
    intro st hfr hany hlt
    obtain ⟨pi, fi, ⟨ws, fr, ⟨desc, parts⟩, zi, cr⟩⟩ := st
    simp only at hfr hany hlt
    subst hfr
    have hany' : (parts.map (fun d =>
        if d.1 = pi then (d.1, if f ∈ d.2 then d.2 else d.2 ++ [f]) else d)).any
        (fun d => decide (d.1 = pi)) = true := by
      rw [any_key_map_snoc]; exact hany
    by_cases h : fi + 1 ≥ max_frames
    · have hfi : fi + 1 = max_frames := by omega
      have hq : (fi + (f :: rest).length) / max_frames = rest.length / max_frames + 1 := by
        unfold max_frames at hfi ⊢
        simp only [List.length_cons]
        omega
      have hr : (fi + (f :: rest).length) % max_frames = rest.length % max_frames := by
        unfold max_frames at hfi ⊢
        simp only [List.length_cons]
        omega
      by_cases hex : (parts.map (fun d =>
          if d.1 = pi then (d.1, if f ∈ d.2 then d.2 else d.2 ++ [f]) else d)).any
          (fun d => decide (d.1 = pi + 1)) = true
      · obtain ⟨parts', hrun, hkeys⟩ := ih
          { part_index := pi + 1, frame_index := 0
            fs := { workspace := ws, frames := rest
                    result := { desc_txt := desc, parts := parts.map (fun d =>
                      if d.1 = pi then (d.1, if f ∈ d.2 then d.2 else d.2 ++ [f]) else d) }
                    zip_input := zi, created_parts := cr ++ [pi + 1] } }
          rfl hex (by show (0 : Nat) < 400; omega)
        have e1 : pi + 1 + rest.length / max_frames = pi + (rest.length / max_frames + 1) := by
          omega
        simp only [zero_add, e1] at hrun hkeys
        refine ⟨parts', ?_, ?_⟩
        · simp only [frameLoop, moveFrame, rename, create_directory, List.mem_cons, true_or,
            hany, and_self, if_true, h, List.erase_cons_head, hex, hrun, hq, hr,
            List.range'_succ, List.append_assoc, List.singleton_append]
        · intro k hk
          apply hkeys
          rw [hq, List.range'_succ, List.mem_cons] at hk
          rcases hk with hk | hk | hk
          · left; rw [any_key_map_snoc]; exact hk
          · left; rw [hk]; exact hex
          · right; exact hk
      · have hex' : (parts.map (fun d =>
            if d.1 = pi then (d.1, if f ∈ d.2 then d.2 else d.2 ++ [f]) else d)).any
            (fun d => decide (d.1 = pi + 1)) = false := by
          simpa using hex
        obtain ⟨parts', hrun, hkeys⟩ := ih
          { part_index := pi + 1, frame_index := 0
            fs := { workspace := ws, frames := rest
                    result := { desc_txt := desc, parts := parts.map (fun d =>
                      if d.1 = pi then (d.1, if f ∈ d.2 then d.2 else d.2 ++ [f]) else d)
                        ++ [(pi + 1, [])] }
                    zip_input := zi, created_parts := cr ++ [pi + 1] } }
          rfl (by simp) (by show (0 : Nat) < 400; omega)
        have e1 : pi + 1 + rest.length / max_frames = pi + (rest.length / max_frames + 1) := by
          omega
        simp only [zero_add, e1] at hrun hkeys
        refine ⟨parts', ?_, ?_⟩
        · simp only [frameLoop, moveFrame, rename, create_directory, List.mem_cons, true_or,
            hany, and_self, if_true, h, List.erase_cons_head, hex', Bool.false_eq_true,
            if_false, hrun, hq, hr, List.range'_succ, List.append_assoc,
            List.singleton_append]
        · intro k hk
          apply hkeys
          rw [hq, List.range'_succ, List.mem_cons] at hk
          rcases hk with hk | hk | hk
          · left
            rw [List.any_append, any_key_map_snoc, hk]
            rfl
          · left
            rw [hk]
            simp
          · right; exact hk
    · have hlt' : fi + 1 < max_frames := by omega
      have hq : (fi + (f :: rest).length) / max_frames = (fi + 1 + rest.length) / max_frames := by
        simp only [List.length_cons]
        congr 1
        omega
      have hr : (fi + (f :: rest).length) % max_frames = (fi + 1 + rest.length) % max_frames := by
        simp only [List.length_cons]
        congr 1
        omega
      obtain ⟨parts', hrun, hkeys⟩ := ih
        { part_index := pi, frame_index := fi + 1
          fs := { workspace := ws, frames := rest
                  result := { desc_txt := desc, parts := parts.map (fun d =>
                    if d.1 = pi then (d.1, if f ∈ d.2 then d.2 else d.2 ++ [f]) else d) }
                  zip_input := zi, created_parts := cr } }
        rfl hany' hlt'
      refine ⟨parts', ?_, ?_⟩
      · simp only [frameLoop, moveFrame, rename, List.mem_cons, true_or,
          hany, and_self, if_true, h, if_false, List.erase_cons_head, hrun, hq, hr]
      · intro k hk
        apply hkeys
        rw [hq] at hk
        rcases hk with hk | hk
        · left; rw [any_key_map_snoc]; exact hk
        · right; exact hk

/-! ## Properties of the partition -/

theorem partsOf_keys (frames : List String) :
    (partsOf frames).map Prod.fst = List.range (frames.length / max_frames + 1) := by
  simp [partsOf, List.map_map, Function.comp_def]

theorem mem_partsOf (frames : List String) (d : Nat × List String) :
    d ∈ partsOf frames ↔ d.1 ≤ frames.length / max_frames ∧ d.2 = chunk frames d.1 := by
  simp only [partsOf, List.mem_map, List.mem_range]
  constructor
  · rintro ⟨k, hk, rfl⟩
    exact ⟨by simp only; omega, rfl⟩
  · rintro ⟨h1, h2⟩
    exact ⟨d.1, by omega, by rw [← h2]⟩

theorem chunk_length_le (frames : List String) (k : Nat) :
    (chunk frames k).length ≤ max_frames := by
  unfold chunk
  rw [List.length_take]
  exact Nat.min_le_left _ _

theorem chunk_length_full (frames : List String) (k : Nat)
    (hk : k < frames.length / max_frames) : (chunk frames k).length = max_frames := by
  unfold chunk
  unfold max_frames at hk ⊢
  rw [List.length_take, List.length_drop]
  omega

theorem chunk_length_last (frames : List String) :
    (chunk frames (frames.length / max_frames)).length = frames.length % max_frames := by
  unfold chunk max_frames
  rw [List.length_take, List.length_drop]
  omega

/-- The `i`-th frame sits in run `i / max_frames` at place `i % max_frames`. -/
theorem chunk_getElem? (frames : List String) (i : Nat) :
    (chunk frames (i / max_frames))[i % max_frames]? = frames[i]? := by
  unfold chunk max_frames
  rw [List.getElem?_take, if_pos (Nat.mod_lt _ (by decide)), List.getElem?_drop]
  congr 1
  omega

theorem flatten_chunks (frames : List String) (m : Nat) :
    ((List.range m).map (chunk frames)).flatten = frames.take (max_frames * m) := by
  induction m with
  | zero => simp
  | succ m ih =>
    rw [List.range_succ, List.map_append, List.flatten_append, ih, List.map_singleton,
      List.flatten_singleton, Nat.mul_succ, List.take_add]
    rfl

/-- The parts, put one after the other in the order of their numbers, are the frame
sequence. -/
theorem flatten_partsOf (frames : List String) :
    ((partsOf frames).map Prod.snd).flatten = frames := by
  have h := flatten_chunks frames (frames.length / max_frames + 1)
  have hle : frames.length ≤ max_frames * (frames.length / max_frames + 1) := by
    unfold max_frames; omega
  rw [List.take_of_length_le hle] at h
  simpa [partsOf, List.map_map, Function.comp_def] using h

/-- Distinct frames: no frame is in two parts. -/
theorem partsOf_disjoint (frames : List String) (hnd : frames.Nodup)
    (d d' : Nat × List String) (hd : d ∈ partsOf frames) (hd' : d' ∈ partsOf frames)
    (f : String) (hf : f ∈ d.2) (hf' : f ∈ d'.2) : d = d' := by
  rw [← flatten_partsOf frames, List.nodup_flatten, List.pairwise_map] at hnd
  by_contra hne
  have hsymm : Symmetric (fun a b : Nat × List String => List.Disjoint a.2 b.2) :=
    fun a b hab => hab.symm
  exact (List.Pairwise.forall hsymm hnd.2 hd hd' hne) hf hf'

/-- The parts of 400 frames: a full `part0` and an empty `part1`. -/
theorem partsOf_400 (frames : List String) (h : frames.length = 400) :
    partsOf frames = [(0, frames), (1, [])] := by
  have h0 : chunk frames 0 = frames := by
    unfold chunk max_frames
    simp [List.take_of_length_le (le_of_eq h)]
  have h1 : chunk frames 1 = [] := chunk_eq_nil frames 1 (by unfold max_frames; omega)
  unfold partsOf
  rw [h]
  show List.map (fun k => (k, chunk frames k)) [0, 1] = _
  simp [h0, h1]

/-- The parts of 401 frames: `part0` with the first 400, `part1` with the last one. -/
theorem partsOf_401 (frames : List String) (h : frames.length = 401) :
    partsOf frames = [(0, frames.take 400), (1, frames.drop 400)] := by
  have h0 : chunk frames 0 = frames.take 400 := by
    unfold chunk max_frames
    simp
  have h1 : chunk frames 1 = frames.drop 400 := by
    unfold chunk max_frames
    apply List.take_of_length_le
    rw [List.length_drop]
    omega
  unfold partsOf
  rw [h]
  show List.map (fun k => (k, chunk frames k)) [0, 1] = _
  simp [h0, h1]

theorem length_frameNames (n : Nat) : (frameNames n).length = n := by
  simp [frameNames]

theorem digitsValue_zeros (k : Nat) (ds : List Char) :
    digitsValue (List.replicate k '0' ++ ds) 0 = digitsValue ds 0 := by
  induction k with
  | zero => rfl
  | succ k ih =>
    rw [List.replicate_succ, List.cons_append]
    exact ih

/-- Frames of different numbers have different names. -/
theorem frameName_injective : Function.Injective frameName := by
  intro i j h
  have hd := congrArg String.data h
  simp only [frameName, String.data_append] at hd
  have hd' := List.append_cancel_right hd
  have hv := congrArg (fun l => digitsValue l 0) hd'
  simp only at hv
  have hi : (toString (i + 1)).data = Nat.toDigits 10 (i + 1) := rfl
  have hj : (toString (j + 1)).data = Nat.toDigits 10 (j + 1) := rfl
  rw [hi, hj, digitsValue_zeros, digitsValue_zeros, (toDigits_spec (i + 1)).2.2,
    (toDigits_spec (j + 1)).2.2] at hv
  omega

/-- The names of the frames of one extraction are distinct. -/
theorem nodup_frameNames (n : Nat) : (frameNames n).Nodup :=
  List.Nodup.map frameName_injective (List.nodup_range n)

/-! ## The descriptor -/

theorem foldl_append_join (f : Nat → String) (l : List Nat) (text : String) :
    l.foldl (fun t i => t ++ f i) text = text ++ String.join (l.map f) := by
  induction l generalizing text with
  | nil => simp [String.join]
  | cons i l ih =>
    rw [List.foldl_cons, ih, List.map_cons]
    have hj : String.join (f i :: List.map f l) = f i ++ String.join (List.map f l) := by
      apply String.ext
      simp [String.join_eq]
    rw [hj, String.append_assoc]

/-- The part lines of `desc.txt`: one line per index from 0 to `part_index`, in ascending
order, behind the text written before. -/
theorem writeParts_eq (part_index : Nat) (text : String) :
    writeParts part_index text =
      text ++ String.join ((List.range (part_index + 1)).map partLine) :=
  foldl_append_join partLine _ text

/-- The decimal numeral of an integer has no newline in it. -/
theorem toString_int_no_newline (i : Int) : ∀ c ∈ (toString i).toList, c ≠ '\n' := by
  intro c hc
  cases i with
  | ofNat m =>
    have hc' : c ∈ Nat.toDigits 10 m := hc
    exact (isdigit_ne ((toDigits_spec m).2.1 c hc')).2.2.2.1
  | negSucc m =>
    have hc' : c ∈ '-' :: Nat.toDigits 10 (m + 1) := hc
    rw [List.mem_cons] at hc'
    rcases hc' with rfl | hc'
    · decide
    · exact (isdigit_ne ((toDigits_spec (m + 1)).2.1 c hc')).2.2.2.1

/-- The first line of a text that starts with a line without newline, then a newline. -/
theorem firstLine_append (line rest : String) (h : ∀ c ∈ line.toList, c ≠ '\n') :
    firstLine (line ++ "\n" ++ rest) = line := by
  unfold firstLine
  apply String.ext
  have hl : (line ++ "\n" ++ rest).toList = line.toList ++ '\n' :: rest.toList := by
    simp only [String.toList, String.data_append, List.append_assoc]
    rfl
  rw [hl]
  show List.takeWhile (fun c => decide (c ≠ '\n')) (line.toList ++ '\n' :: rest.toList)
    = line.data
  rw [List.takeWhile_append_of_pos]
  · simp [String.toList]
  · intro c hc
    simpa using h c hc

theorem no_newline_append (a b : String) (ha : ∀ c ∈ a.toList, c ≠ '\n')
    (hb : ∀ c ∈ b.toList, c ≠ '\n') : ∀ c ∈ (a ++ b).toList, c ≠ '\n' := by
  intro c hc
  have hc' : c ∈ a.toList ++ b.toList := by
    simpa only [String.toList, String.data_append] using hc
  rcases List.mem_append.1 hc' with h | h
  · exact ha c h
  · exact hb c h

theorem no_newline_space : ∀ c ∈ " ".toList, c ≠ '\n' := by
  decide

theorem no_newline_g : ∀ c ∈ "g ".toList, c ≠ '\n' := by
  decide

/-! ## The whole run -/

/-- The frame processing on any file system: it never throws, it empties `frames`, it ends
with `part_index` the number of frames divided by 400, it has called `fs::create_directory`
for the part numbers 0 to `part_index` in this order, each of which has its directory
afterwards, and it leaves the other fields alone. -/
theorem partitionFrames_completes (fs : FileSystem) :
    ∃ parts, partitionFrames fs =
      ({ part_index := fs.frames.length / max_frames
         frame_index := fs.frames.length % max_frames
         fs := { fs with
           frames := []
           result := { fs.result with parts := parts }
           created_parts :=
             fs.created_parts ++ List.range (fs.frames.length / max_frames + 1) } },
       .ok ()) ∧
      ∀ k, k ≤ fs.frames.length / max_frames → parts.any (fun d => decide (d.1 = k)) = true := by
  obtain ⟨ws, fr, ⟨desc, parts⟩, zi, cr⟩ := fs
  have hrange : ∀ m, List.range (m + 1) = 0 :: List.range' 1 m := by
    intro m
    rw [List.range_eq_range', List.range'_succ]
  by_cases hex : parts.any (fun d => decide (d.1 = 0)) = true
  · obtain ⟨parts', hrun, hkeys⟩ := frameLoop_completes fr
      { part_index := 0, frame_index := 0
        fs := { workspace := ws, frames := fr, result := { desc_txt := desc, parts := parts }
                zip_input := zi, created_parts := cr ++ [0] } }
      rfl hex (by show (0 : Nat) < 400; omega)
    simp only [zero_add] at hrun hkeys
    refine ⟨parts', ?_, ?_⟩
    · simp only [partitionFrames, create_directory, hex, if_true, hrun, hrange,
        List.append_assoc, List.singleton_append]
    · intro k hk
      simp only at hk
      apply hkeys
      rcases Nat.eq_zero_or_pos k with h0 | hpos
      · left; rw [h0]; exact hex
      · right
        rw [List.mem_range'_1]
        omega
  · have hex' : parts.any (fun d => decide (d.1 = 0)) = false := Bool.eq_false_iff.2 hex
    obtain ⟨parts', hrun, hkeys⟩ := frameLoop_completes fr
      { part_index := 0, frame_index := 0
        fs := { workspace := ws, frames := fr
                result := { desc_txt := desc, parts := parts ++ [(0, [])] }
                zip_input := zi, created_parts := cr ++ [0] } }
      rfl (by simp) (by show (0 : Nat) < 400; omega)
    simp only [zero_add] at hrun hkeys
    refine ⟨parts', ?_, ?_⟩
    · simp only [partitionFrames, create_directory, hex', Bool.false_eq_true, if_false, hrun,
        hrange, List.append_assoc, List.singleton_append]
    · intro k hk
      simp only at hk
      apply hkeys
      rcases Nat.eq_zero_or_pos k with h0 | hpos
      · left; rw [h0, List.any_append]; simp
      · right
        rw [List.mem_range'_1]
        omega

/-- A run that acquires its workspace `tmp_dir`, whose extraction command succeeds and
whose `desc.txt` opens, on any file system: the frame processing completes, the descriptor
gets its part lines for the indices 0 to the number of frames divided by 400, which are the
part numbers `fs::create_directory` was called for, and the tree is handed to the archiver;
then the run either fails on the archiver's status, leaving the workspace behind, or
removes the workspace and returns. -/
theorem createBootanimation_completes (w : World) (config : Config) (fs : FileSystem)
    (tmp_dir : String)
    (htmp : getTmpDir w config = .ok tmp_dir)
    (hffmpeg : w.system (ffmpeg_cmd config (tmp_dir ++ "/frames")) = 0)
    (hdesc : w.ofstream (tmp_dir ++ "/result" ++ "/desc.txt") = true) :
    ∃ parts,
      createBootanimation w config fs =
        (if w.system (zip_cmd w config (tmp_dir ++ "/result")) ≠ 0 then
          ({ workspace := true, frames := []
             result :=
              { desc_txt := some (writeParts
                  ((w.extracted (ffmpeg_cmd config (tmp_dir ++ "/frames"))).length / max_frames)
                  (globalLine config))
                parts := parts }
             zip_input := some
              { desc_txt := some (writeParts
                  ((w.extracted (ffmpeg_cmd config (tmp_dir ++ "/frames"))).length / max_frames)
                  (globalLine config))
                parts := parts }
             created_parts := fs.created_parts ++ List.range
              ((w.extracted (ffmpeg_cmd config (tmp_dir ++ "/frames"))).length / max_frames
                + 1) },
           .error (.runtime_error "Failed to create zip file"))
        else
          ({ workspace := false, frames := [], result := {}
             zip_input := some
              { desc_txt := some (writeParts
                  ((w.extracted (ffmpeg_cmd config (tmp_dir ++ "/frames"))).length / max_frames)
                  (globalLine config))
                parts := parts }
             created_parts := fs.created_parts ++ List.range
              ((w.extracted (ffmpeg_cmd config (tmp_dir ++ "/frames"))).length / max_frames
                + 1) },
           .ok ())) ∧
      ∀ k, k ≤ (w.extracted (ffmpeg_cmd config (tmp_dir ++ "/frames"))).length / max_frames →
        parts.any (fun d => decide (d.1 = k)) = true := by
  obtain ⟨parts, hrun, hkeys⟩ := partitionFrames_completes
    { workspace := true, frames := w.extracted (ffmpeg_cmd config (tmp_dir ++ "/frames"))
      result := { desc_txt := some (globalLine config), parts := fs.result.parts }
      zip_input := fs.zip_input, created_parts := fs.created_parts }
  refine ⟨parts, ?_, hkeys⟩
  simp only [createBootanimation, htmp, hffmpeg, hdesc, create_directories, ne_eq,
    not_true_eq_false, if_false, hrun, remove_all]

/-- A run that acquires its workspace `tmp_dir`, whose extraction command succeeds with
entries of distinct names and whose `desc.txt` opens, on a file system without left-over
part directories: it hands the assembled tree to the archiver, and then either fails on
the archiver's status, leaving the workspace behind, or removes the workspace and
returns. -/
theorem createBootanimation_run (w : World) (config : Config) (fs : FileSystem)
    (tmp_dir : String)
    (htmp : getTmpDir w config = .ok tmp_dir)
    (hffmpeg : w.system (ffmpeg_cmd config (tmp_dir ++ "/frames")) = 0)
    (hdesc : w.ofstream (tmp_dir ++ "/result" ++ "/desc.txt") = true)
    (hfresh : fs.result.parts = [])
    (hnd : (w.extracted (ffmpeg_cmd config (tmp_dir ++ "/frames"))).Nodup) :
    createBootanimation w config fs =
      if w.system (zip_cmd w config (tmp_dir ++ "/result")) ≠ 0 then
        ({ workspace := true, frames := []
           result := assembled config (w.extracted (ffmpeg_cmd config (tmp_dir ++ "/frames")))
           zip_input :=
            some (assembled config (w.extracted (ffmpeg_cmd config (tmp_dir ++ "/frames"))))
           created_parts := fs.created_parts ++ List.range
            ((w.extracted (ffmpeg_cmd config (tmp_dir ++ "/frames"))).length / max_frames
              + 1) },
         .error (.runtime_error "Failed to create zip file"))
      else
        ({ workspace := false, frames := [], result := {}
           zip_input :=
            some (assembled config (w.extracted (ffmpeg_cmd config (tmp_dir ++ "/frames"))))
           created_parts := fs.created_parts ++ List.range
            ((w.extracted (ffmpeg_cmd config (tmp_dir ++ "/frames"))).length / max_frames
              + 1) },
         .ok ()) := by
  have hpart := partitionFrames_eq
    { workspace := true, frames := w.extracted (ffmpeg_cmd config (tmp_dir ++ "/frames"))
      result := { desc_txt := some (globalLine config), parts := fs.result.parts }
      zip_input := fs.zip_input, created_parts := fs.created_parts } hfresh hnd
  simp only [createBootanimation, htmp, hffmpeg, hdesc, create_directories, ne_eq,
    not_true_eq_false, if_false, hpart, remove_all, stateAfter, assembled]

/-! ## Claims on `parseResolution` and `validateConfig` -/

/-- C8, as the code has it: for all positive integers `W` and `H` that fit an `int`
(at most 2147483647), `parseResolution` applied to the decimal digits of `W`, the
character `x` and the decimal digits of `H` succeeds and sets `config.width = W` and
`config.height = H` exactly, leaving the other fields alone. -/
theorem parseResolution_roundtrip (config : Config) (W H : Nat)
    (_hW : 0 < W) (_hH : 0 < H) (hWmax : (W : Int) ≤ INT_MAX) (hHmax : (H : Int) ≤ INT_MAX) :
    parseResolution { config with resolution := toString W ++ "x" ++ toString H } =
      .ok { config with
        resolution := toString W ++ "x" ++ toString H, width := W, height := H } := by
  have hl : (toString W ++ "x" ++ toString H).toList
      = Nat.toDigits 10 W ++ 'x' :: Nat.toDigits 10 H := by
    simp only [String.toList, String.data_append, ← toList_toString_nat, List.append_assoc]
    rfl
  have hfind := find_digits_x (Nat.toDigits 10 W) (Nat.toDigits 10 H) (toDigits_spec W).2.1
  have htake : List.take (Nat.toDigits 10 W).length
      (Nat.toDigits 10 W ++ 'x' :: Nat.toDigits 10 H) = Nat.toDigits 10 W := by simp
  have hdrop : List.drop ((Nat.toDigits 10 W).length + 1)
      (Nat.toDigits 10 W ++ 'x' :: Nat.toDigits 10 H) = Nat.toDigits 10 H := by simp
  simp only [parseResolution, hl, hfind, htake, hdrop, stoi_toDigits W hWmax,
    stoi_toDigits H hHmax]

/-- The resolution `1080x2400` of the usage text is read back exactly. -/
theorem parseResolution_roundtrip_witness :
    parseResolution { resolution := "1080x2400" } =
      .ok { resolution := "1080x2400", width := 1080, height := 2400 } :=
  parseResolution_roundtrip {} 1080 2400 (by decide) (by decide) (by decide) (by decide)

/-- C8 fails as stated: the positive integer 2147483648 does not fit an `int`, and
`std::stoi` throws `std::out_of_range` on its digits. -/
theorem parseResolution_roundtrip_fails_beyond_int :
    0 < 2147483648 ∧ 0 < 1 ∧
    parseResolution { resolution := toString 2147483648 ++ "x" ++ toString 1 } =
      .error (.out_of_range, { resolution := toString 2147483648 ++ "x" ++ toString 1 }) := by
  decide

/-- C9, as the code has it: for every resolution string that contains no literal `x`, or
whose width component (the text before the first `x`) or height component (the text after
it) does not start, after optional white space and one optional sign, with a decimal digit,
`parseResolution` fails with an exception and assigns no height. Without an `x` it throws
the error that names the expected `widthxheight` shape and leaves `config` as it was; with
an `x`, when `std::stoi` fails on the width component it throws that exception and leaves
`config` as it was, and when the width component converts, so that the height component is
the one without a leading number, it throws `std::invalid_argument` after `config.width`
has been set to the converted width. -/
theorem parseResolution_fails (config : Config)
    (h : 'x' ∉ config.resolution.toList ∨
      startsWithNumber (widthText config.resolution) = false ∨
      startsWithNumber (heightText config.resolution) = false) :
    (∃ e config', parseResolution config = .error (e, config') ∧
      config'.height = config.height) ∧
    ('x' ∉ config.resolution.toList → parseResolution config = .error
      (.runtime_error "Invalid resolution format. Use widthxheight (e.g., 1080x2400)",
        config)) ∧
    ('x' ∈ config.resolution.toList → ∀ e, stoi (widthText config.resolution) = .error e →
      parseResolution config = .error (e, config)) ∧
    ('x' ∈ config.resolution.toList → ∀ v, stoi (widthText config.resolution) = .ok v →
      parseResolution config = .error (.invalid_argument, { config with width := v })) := by
  unfold widthText at h ⊢
  unfold heightText at h
  unfold parseResolution
  rcases find_x_spec config.resolution.toList with ⟨h1, h2⟩ | ⟨pos, h1, h2, h3, h4⟩
  · simp only [h1]
    refine ⟨⟨_, _, rfl, rfl⟩, ?_, fun hx => absurd hx h2, fun hx => absurd hx h2⟩
    simp
  · simp only [h1]
    rw [← h3, ← h4] at h
    rw [← h3]
    cases hw : stoi (List.take pos config.resolution.toList) with
    | error e =>
      refine ⟨⟨_, _, rfl, rfl⟩, fun hx => absurd h2 hx, fun _ e' he' => ?_, fun _ v hv => ?_⟩
      · injection he' with he'
        rw [he']
      · cases hv
    | ok width =>
      have hheight : startsWithNumber (List.drop (pos + 1) config.resolution.toList) = false := by
        rcases h with h | h | h
        · exact absurd h2 h
        · rw [stoi_of_not_startsWithNumber _ h] at hw
          cases hw
        · exact h
      have hstoi : stoi (List.drop (pos + 1)
          ({ config with width := width } : Config).resolution.toList) =
          .error .invalid_argument := stoi_of_not_startsWithNumber _ hheight
      simp only [hstoi]
      refine ⟨⟨_, _, rfl, rfl⟩, fun hx => absurd h2 hx, fun _ e' he' => ?_, fun _ v hv => ?_⟩
      · cases he'
      · injection hv with hv
        rw [hv]

/-- A resolution without `x` is rejected with `config` untouched; on `1080xtall` the
exception is thrown after the width 1080 has been stored. -/
theorem parseResolution_fails_witness :
    parseResolution { resolution := "1080*2400" } = .error
      (.runtime_error "Invalid resolution format. Use widthxheight (e.g., 1080x2400)",
        { resolution := "1080*2400" }) ∧
    parseResolution { resolution := "1080xtall" } =
      .error (.invalid_argument, { resolution := "1080xtall", width := 1080 }) :=
  ⟨(parseResolution_fails { resolution := "1080*2400" } (Or.inl (by decide))).2.1 (by decide),
   (parseResolution_fails { resolution := "1080xtall" } (Or.inr (Or.inr (by decide)))).2.2.2
     (by decide) 1080 (by decide)⟩

/-- C9 fails as stated: the height component `2400abc` is not a decimal number, and the
width component `12ab` is not either, yet `parseResolution` succeeds on both strings,
reading the leading digits. -/
theorem parseResolution_accepts_trailing_text :
    parseResolution { resolution := "1080x2400abc" } =
      .ok { resolution := "1080x2400abc", width := 1080, height := 2400 } ∧
    parseResolution { resolution := "12abx34" } =
      .ok { resolution := "12abx34", width := 12, height := 34 } := by
  decide

/-- C10, as the code has it: whenever `validateConfig` returns without error, the
resulting configuration has `fps > 0` and a `frame_format` that is `jpg` or `png`, and its
width and height are what `std::stoi` reads from the two components of its resolution
string: integers of the `int` range, of either sign. -/
theorem validateConfig_ok (w : World) (config config' : Config)
    (h : validateConfig w config = .ok config') :
    config'.fps > 0 ∧ (config'.frame_format = "jpg" ∨ config'.frame_format = "png") ∧
    stoi (widthText config'.resolution) = .ok config'.width ∧
    stoi (heightText config'.resolution) = .ok config'.height ∧
    INT_MIN ≤ config'.width ∧ config'.width ≤ INT_MAX ∧
    INT_MIN ≤ config'.height ∧ config'.height ≤ INT_MAX := by
  unfold validateConfig at h
  split at h
  · cases h
  · split at h
    · cases h
    · simp only at h
      split at h
      · cases h
      · split at h
        · cases h
        · rename_i parsed hparse
          obtain ⟨_, hw, hh⟩ := parseResolution_ok _ _ hparse
          have hres : parsed.resolution = (defaultOutputPath w config).resolution := by
            have := (parseResolution_ok _ _ hparse).1
            rw [this]
          split at h
          · cases h
          · rename_i hfps
            split at h
            · cases h
            · rename_i hfmt
              split at h
              · cases h
              · split at h
                · cases h
                · injection h with h
                  subst h
                  rw [hres]
                  have hr1 := stoi_range _ _ hw
                  have hr2 := stoi_range _ _ hh
                  refine ⟨by omega, ?_, hw, hh, hr1.1, hr1.2, hr2.1, hr2.2⟩
                  by_contra hne
                  exact hfmt (not_or.mp hne)

/-- An accepted configuration has a positive frame rate and a known frame format. -/
theorem validateConfig_ok_witness :
    validateConfig (goodWorld []) rawConfig = .ok sampleConfig ∧
    sampleConfig.fps > 0 ∧
    (sampleConfig.frame_format = "jpg" ∨ sampleConfig.frame_format = "png") ∧
    stoi (widthText sampleConfig.resolution) = .ok sampleConfig.width :=
  ⟨by decide,
   (validateConfig_ok (goodWorld []) rawConfig sampleConfig (by decide)).1,
   (validateConfig_ok (goodWorld []) rawConfig sampleConfig (by decide)).2.1,
   (validateConfig_ok (goodWorld []) rawConfig sampleConfig (by decide)).2.2.1⟩

/-- C10 fails as stated: `validateConfig` accepts the resolution `0x-5` and returns a
configuration of width 0 and height -5. -/
theorem validateConfig_accepts_nonpositive_size :
    validateConfig (goodWorld []) { rawConfig with resolution := "0x-5" } =
      .ok { rawConfig with resolution := "0x-5", width := 0, height := -5 } ∧
    ¬ (({ rawConfig with resolution := "0x-5", width := 0, height := -5 } : Config).width > 0) ∧
    ¬ (({ rawConfig with resolution := "0x-5", width := 0, height := -5 } : Config).height > 0) := by
  decide

/-! ## Claims on the partition of the frames -/

/-- C1, evaluated on exactly 400 extracted frames: the frame processing leaves two part
directories, `part0` with all 400 frames and an empty `part1`, with `part_index = 1`; the
claim has exactly one part, `part0`. -/
theorem partitionFrames_400_leaves_empty_part :
    partitionFrames { workspace := true, frames := frameNames 400 } =
      ({ part_index := 1, frame_index := 0,
         fs := { workspace := true, frames := [],
                 result := { parts := [(0, frameNames 400), (1, [])] },
                 created_parts := [0, 1] } }, .ok ()) := by
  rw [partitionFrames_eq _ rfl (nodup_frameNames 400)]
  simp only [stateAfter, partsOf_400 _ (length_frameNames 400), length_frameNames, max_frames]
  rfl

/-- C2, as the code has it: when the frame loop starts on a `result` directory without
part directories, for every ordered sequence of frame files of distinct names (as one
directory holds them) the frame processing of `createBootanimation` completes and moves the `i`-th enumerated frame out of `frames` into
directory `part⌊i/400⌋`, under its own name, behind the frames moved before it. Hence the
parts are numbered contiguously from 0, part `k` holds the `k`-th run of at most 400
consecutive frames, the parts put one after the other in index order are the original
sequence, every part but the last holds exactly 400 frames, every frame lies in exactly
one part, and 401 frames give `part0` with the first 400 and `part1` with the last. -/
theorem partitionFrames_places_frames (fs : FileSystem) (hfresh : fs.result.parts = [])
    (hnd : fs.frames.Nodup) :
    ∃ st, partitionFrames fs = (st, .ok ()) ∧
      st.fs.frames = [] ∧
      st.part_index = fs.frames.length / 400 ∧
      st.fs.result.parts.map Prod.fst = List.range (fs.frames.length / 400 + 1) ∧
      (∀ d ∈ st.fs.result.parts, d.2 = (fs.frames.drop (400 * d.1)).take 400) ∧
      (∀ i, ∀ hi : i < fs.frames.length, ∃ d ∈ st.fs.result.parts,
        d.1 = i / 400 ∧ d.2[i % 400]? = some (fs.frames[i])) ∧
      (∀ d ∈ st.fs.result.parts, d.2.length ≤ 400) ∧
      (st.fs.result.parts.map Prod.snd).flatten = fs.frames ∧
      (∀ d ∈ st.fs.result.parts, d.1 < fs.frames.length / 400 → d.2.length = 400) ∧
      (∀ f ∈ fs.frames, ∃! d, d ∈ st.fs.result.parts ∧ f ∈ d.2) ∧
      (fs.frames.length = 401 →
        st.fs.result.parts = [(0, fs.frames.take 400), (1, fs.frames.drop 400)]) := by
  refine ⟨_, partitionFrames_eq fs hfresh hnd, rfl, rfl, ?_, ?_, ?_, ?_, ?_, ?_, ?_, ?_⟩
  · exact partsOf_keys fs.frames
  · intro d hd
    exact ((mem_partsOf fs.frames d).1 hd).2
  · intro i hi
    refine ⟨(i / 400, chunk fs.frames (i / 400)), ?_, rfl, ?_⟩
    · refine (mem_partsOf fs.frames _).2 ⟨?_, rfl⟩
      exact Nat.div_le_div_right (le_of_lt hi)
    · rw [← List.getElem?_eq_getElem hi]
      exact chunk_getElem? fs.frames i
  · intro d hd
    rw [((mem_partsOf fs.frames d).1 hd).2]
    exact chunk_length_le fs.frames d.1
  · exact flatten_partsOf fs.frames
  · intro d hd hlt
    rw [((mem_partsOf fs.frames d).1 hd).2]
    exact chunk_length_full fs.frames d.1 hlt
  · intro f hf
    have hmem : f ∈ ((partsOf fs.frames).map Prod.snd).flatten := by
      rw [flatten_partsOf]; exact hf
    rw [List.mem_flatten] at hmem
    obtain ⟨l, hl, hfl⟩ := hmem
    rw [List.mem_map] at hl
    obtain ⟨d, hd, rfl⟩ := hl
    refine ⟨d, ⟨hd, hfl⟩, ?_⟩
    rintro d' ⟨hd', hfd'⟩
    exact partsOf_disjoint fs.frames hnd d' d hd' hd f hfd' hfl
  · intro h
    exact partsOf_401 fs.frames h

/-- The scenario of 401 extracted frames: two parts, of 400 frames and of 1 frame. -/
theorem partitionFrames_places_frames_witness :
    ∃ st, partitionFrames { workspace := true, frames := frameNames 401 } = (st, .ok ()) ∧
      st.fs.result.parts = [(0, (frameNames 401).take 400), (1, (frameNames 401).drop 400)] := by
  obtain ⟨st, h1, _, _, _, _, _, _, _, _, _, h11⟩ :=
    partitionFrames_places_frames { workspace := true, frames := frameNames 401 } rfl
      (nodup_frameNames 401)
  exact ⟨st, h1, h11 (length_frameNames 401)⟩

/-- C2 fails as stated: on a workspace in which an earlier run over three frames has left
its `part0` behind (a run that failed leaves its workspace), the frame processing of a
sequence of two frames ends with three files in `part0`; the parts put one after the other
are not the sequence, and `part0` holds a file that is no frame of the sequence. -/
theorem partitionFrames_on_left_over_workspace :
    partitionFrames
        { workspace := true, frames := frameNames 2,
          result := { parts := [(0, frameNames 3)] } } =
      ({ part_index := 0, frame_index := 2,
         fs := { workspace := true, frames := [],
                 result := { parts := [(0, frameNames 3)] },
                 created_parts := [0] } }, .ok ()) ∧
    ([(0, frameNames 3)].map Prod.snd).flatten ≠ frameNames 2 ∧
    "000003.jpg" ∈ frameNames 3 ∧ "000003.jpg" ∉ frameNames 2 := by
  decide

/-! ## Claims on the descriptor and on the run as a whole -/

/-- C3, evaluated on exactly 400 extracted frames: the archived `desc.txt` has the two
directive lines `c 1 0 part0` and `c 1 0 part1`, while only one of the two part directories
created, `part0`, received a frame; the claim has one line per non-empty part, so exactly
one. -/
theorem createBootanimation_400_has_two_lines :
    (createBootanimation (goodWorld (frameNames 400)) sampleConfig {}).1.zip_input =
      some { desc_txt := some "1080 2400 30\nc 1 0 part0\nc 1 0 part1\n",
             parts := [(0, frameNames 400), (1, [])] } ∧
    ([(0, frameNames 400), (1, [])].filter (fun d => d.2 ≠ [])).length = 1 := by
  have hrun := createBootanimation_run (goodWorld (frameNames 400)) sampleConfig {}
    "/home/user/bootanim" (by decide) (by decide) (by decide) (by decide)
    (nodup_frameNames 400)
  have hlen : (frameNames 400).length = 400 := length_frameNames 400
  have hne : frameNames 400 ≠ [] := by
    intro h
    rw [h] at hlen
    cases hlen
  have htext : writeParts (400 / max_frames) (globalLine sampleConfig) =
      "1080 2400 30\nc 1 0 part0\nc 1 0 part1\n" := by decide
  have hasm : assembled sampleConfig (frameNames 400) =
      { desc_txt := some "1080 2400 30\nc 1 0 part0\nc 1 0 part1\n",
        parts := [(0, frameNames 400), (1, [])] } := by
    unfold assembled
    rw [partsOf_400 _ hlen, hlen, htext]
  constructor
  · rw [hrun]
    exact congrArg some hasm
  · simp [hne]

/-- C4: in a run that reaches the descriptor (workspace acquired, extraction succeeded,
`desc.txt` opened), for all integers width, height, fps, offset_x and offset_y the first
line of the `desc.txt` that is archived is `<width> <height> <fps>` when `is_oos` is false
and `g <width> <height> <offset_x> <offset_y> <fps>` when it is true: decimal numerals
separated by single spaces, the line ended by a newline. -/
theorem createBootanimation_global_line (w : World) (config : Config) (fs : FileSystem)
    (tmp_dir : String)
    (htmp : getTmpDir w config = .ok tmp_dir)
    (hffmpeg : w.system (ffmpeg_cmd config (tmp_dir ++ "/frames")) = 0)
    (hdesc : w.ofstream (tmp_dir ++ "/result" ++ "/desc.txt") = true)
    (hfresh : fs.result.parts = []) :
    ∃ tree text, (createBootanimation w config fs).1.zip_input = some tree ∧
      tree.desc_txt = some text ∧
      (config.is_oos = false → firstLine text =
        toString config.width ++ " " ++ toString config.height ++ " " ++ toString config.fps) ∧
      (config.is_oos = true → firstLine text =
        "g " ++ toString config.width ++ " " ++ toString config.height ++ " "
          ++ toString config.offset_x ++ " " ++ toString config.offset_y ++ " "
          ++ toString config.fps) ∧
      ∃ rest, text = firstLine text ++ "\n" ++ rest := by
  have _ := hfresh
  obtain ⟨parts, hrun, _⟩ := createBootanimation_completes w config fs tmp_dir htmp hffmpeg hdesc
  have hzip : (createBootanimation w config fs).1.zip_input =
      some { desc_txt := some (writeParts
               ((w.extracted (ffmpeg_cmd config (tmp_dir ++ "/frames"))).length / max_frames)
               (globalLine config)),
             parts := parts } := by
    rw [hrun]
    split <;> rfl
  refine ⟨_, _, hzip, rfl, ?_⟩
  rw [writeParts_eq]
  have hW := toString_int_no_newline config.width
  have hH := toString_int_no_newline config.height
  have hF := toString_int_no_newline config.fps
  have hX := toString_int_no_newline config.offset_x
  have hY := toString_int_no_newline config.offset_y
  have hsp := no_newline_space
  by_cases hoos : config.is_oos = true
  · have hline := no_newline_append _ _ (no_newline_append _ _ (no_newline_append _ _
      (no_newline_append _ _ (no_newline_append _ _ (no_newline_append _ _
      (no_newline_append _ _ (no_newline_append _ _ (no_newline_append _ _
        no_newline_g hW) hsp) hH) hsp) hX) hsp) hY) hsp) hF
    have hfirst := firstLine_append _
      (String.join ((List.range ((w.extracted
        (ffmpeg_cmd config (tmp_dir ++ "/frames"))).length / max_frames + 1)).map partLine)) hline
    have hg : globalLine config = "g " ++ toString config.width ++ " " ++ toString config.height
        ++ " " ++ toString config.offset_x ++ " " ++ toString config.offset_y ++ " "
        ++ toString config.fps ++ "\n" := by
      simp only [globalLine, hoos, if_true]
    rw [hg, hfirst]
    exact ⟨fun h => absurd hoos (by simp [h]), fun _ => rfl, _, rfl⟩
  · have hline := no_newline_append _ _
      (no_newline_append _ _ (no_newline_append _ _ (no_newline_append _ _ hW hsp) hH) hsp) hF
    have hfirst := firstLine_append _
      (String.join ((List.range ((w.extracted
        (ffmpeg_cmd config (tmp_dir ++ "/frames"))).length / max_frames + 1)).map partLine)) hline
    have hg : globalLine config = toString config.width ++ " " ++ toString config.height
        ++ " " ++ toString config.fps ++ "\n" := by
      simp only [globalLine, hoos, Bool.false_eq_true, if_false]
    rw [hg, hfirst]
    exact ⟨fun _ => rfl, fun h => absurd h hoos, _, rfl⟩

/-- The scenarios 1080x2400 at 30 frames per second: `1080 2400 30` in the standard
variant, `g 1080 2400 10 20 30` in the offset variant with offset (10, 20). -/
theorem createBootanimation_global_line_witness :
    (∃ tree text,
      (createBootanimation (goodWorld (frameNames 2)) sampleConfig {}).1.zip_input = some tree ∧
      tree.desc_txt = some text ∧ firstLine text = "1080 2400 30") ∧
    (∃ tree text,
      (createBootanimation (goodWorld (frameNames 2))
        { sampleConfig with is_oos := true, offset_x := 10, offset_y := 20 } {}).1.zip_input
        = some tree ∧
      tree.desc_txt = some text ∧ firstLine text = "g 1080 2400 10 20 30") := by
  obtain ⟨tree, text, h1, h2, h3, _, _⟩ :=
    createBootanimation_global_line (goodWorld (frameNames 2)) sampleConfig {}
      "/home/user/bootanim" (by decide) (by decide) (by decide) (by decide)
  obtain ⟨tree', text', h1', h2', _, h4', _⟩ :=
    createBootanimation_global_line (goodWorld (frameNames 2))
      { sampleConfig with is_oos := true, offset_x := 10, offset_y := 20 } {}
      "/home/user/bootanim" (by decide) (by decide) (by decide) (by decide)
  refine ⟨⟨tree, text, h1, h2, ?_⟩, ⟨tree', text', h1', h2', ?_⟩⟩
  · rw [h3 rfl]; decide
  · rw [h4' rfl]; decide

/-- C5, as the code has it: in a run that has acquired its workspace and whose frame
extraction succeeds but leaves no frame, `createBootanimation` raises no error for the
empty sequence (no file-system call failing). When `desc.txt` cannot be opened it throws `Failed to create desc.txt`
before any part directory is asked for. When `desc.txt` opens, it calls
`fs::create_directory` for `part0` and for no other part (which creates an empty `part0`
unless one is there), moves no file, writes the one directive line `c 1 0 part0` behind
the global line, and runs the archiver on that tree; when the archiver succeeds it removes
the workspace and returns normally, and when the archiver fails it throws
`Failed to create zip file`. -/
theorem createBootanimation_no_frames (w : World) (config : Config) (fs : FileSystem)
    (tmp_dir : String)
    (htmp : getTmpDir w config = .ok tmp_dir)
    (hffmpeg : w.system (ffmpeg_cmd config (tmp_dir ++ "/frames")) = 0)
    (hempty : w.extracted (ffmpeg_cmd config (tmp_dir ++ "/frames")) = []) :
    (w.ofstream (tmp_dir ++ "/result" ++ "/desc.txt") = false →
      createBootanimation w config fs =
        ({ fs with workspace := true, frames := [] },
         .error (.runtime_error "Failed to create desc.txt"))) ∧
    (w.ofstream (tmp_dir ++ "/result" ++ "/desc.txt") = true →
      (createBootanimation w config fs).1.zip_input =
        some { desc_txt := some (globalLine config ++ "c 1 0 part0\n")
               parts := fs.result.parts ++
                if fs.result.parts.any (fun d => d.1 = 0) then [] else [(0, [])] } ∧
      (createBootanimation w config fs).1.created_parts = fs.created_parts ++ [0] ∧
      (w.system (zip_cmd w config (tmp_dir ++ "/result")) = 0 →
        (createBootanimation w config fs).2 = .ok () ∧
        (createBootanimation w config fs).1.workspace = false) ∧
      (w.system (zip_cmd w config (tmp_dir ++ "/result")) ≠ 0 →
        (createBootanimation w config fs).2 =
          .error (.runtime_error "Failed to create zip file"))) := by
  have htext : writeParts 0 (globalLine config) = globalLine config ++ "c 1 0 part0\n" := rfl
  constructor
  · intro hdesc
    simp only [createBootanimation, htmp, hffmpeg, hempty, hdesc, create_directories, ne_eq,
      not_true_eq_false, if_false, Bool.false_eq_true, not_false_eq_true, if_true]
  · intro hdesc
    by_cases hex : fs.result.parts.any (fun d => decide (d.1 = 0)) = true
    · by_cases hz : w.system (zip_cmd w config (tmp_dir ++ "/result")) = 0
      · simp [createBootanimation, partitionFrames, frameLoop, htmp, hffmpeg, hempty, hdesc,
          create_directories, create_directory, remove_all, hex, hz, htext]
      · simp [createBootanimation, partitionFrames, frameLoop, htmp, hffmpeg, hempty, hdesc,
          create_directories, create_directory, remove_all, hex, hz, htext]
    · have hex' : fs.result.parts.any (fun d => decide (d.1 = 0)) = false :=
        Bool.eq_false_iff.2 hex
      by_cases hz : w.system (zip_cmd w config (tmp_dir ++ "/result")) = 0
      · simp [createBootanimation, partitionFrames, frameLoop, htmp, hffmpeg, hempty, hdesc,
          create_directories, create_directory, remove_all, hex', hz, htext]
      · simp [createBootanimation, partitionFrames, frameLoop, htmp, hffmpeg, hempty, hdesc,
          create_directories, create_directory, remove_all, hex', hz, htext]

/-- No frame at all: on a host where everything else works the run returns normally, and
on a host where `desc.txt` cannot be opened it throws before any part is created. -/
theorem createBootanimation_no_frames_witness :
    (createBootanimation (goodWorld []) sampleConfig {}).2 = .ok () ∧
    createBootanimation { goodWorld [] with ofstream := fun _ => false } sampleConfig {} =
      ({ workspace := true }, .error (.runtime_error "Failed to create desc.txt")) :=
  ⟨((createBootanimation_no_frames (goodWorld []) sampleConfig {} "/home/user/bootanim"
      (by decide) (by decide) (by decide)).2 (by decide)).2.2.1 (by decide) |>.1,
   (createBootanimation_no_frames { goodWorld [] with ofstream := fun _ => false }
      sampleConfig {} "/home/user/bootanim" (by decide) (by decide) (by decide)).1
      (by decide)⟩

/-- C5 fails as stated: with an empty frame sequence after a successful extraction the run
does not fail; the directory `part0` is created, the directive line `c 1 0 part0` is
written, the archiver is run on that tree, and the function returns normally. -/
theorem createBootanimation_empty_sequence_succeeds :
    createBootanimation (goodWorld []) sampleConfig {} =
      ({ workspace := false, frames := [], result := {},
         zip_input := some { desc_txt := some "1080 2400 30\nc 1 0 part0\n",
                             parts := [(0, [])] },
         created_parts := [0] }, .ok ()) := by
  decide

/-- C6, evaluated on its failure paths: when the extraction command fails, when `desc.txt`
cannot be opened, and when the archiver fails, `createBootanimation` throws and the scratch
workspace still exists when control returns; the claim has it removed. -/
theorem createBootanimation_failure_keeps_workspace :
    createBootanimation extractionFails sampleConfig {} =
      ({ workspace := true, frames := ["000001.jpg"] },
       .error (.runtime_error "Failed to generate frames using ffmpeg")) ∧
    createBootanimation descFails sampleConfig {} =
      ({ workspace := true, frames := frameNames 2 },
       .error (.runtime_error "Failed to create desc.txt")) ∧
    createBootanimation zipFails sampleConfig {} =
      ({ workspace := true, frames := [],
         result := { desc_txt := some "1080 2400 30\nc 1 0 part0\n",
                     parts := [(0, frameNames 2)] },
         zip_input := some { desc_txt := some "1080 2400 30\nc 1 0 part0\n",
                             parts := [(0, frameNames 2)] },
         created_parts := [0] },
       .error (.runtime_error "Failed to create zip file")) := by
  refine ⟨by decide, by decide, ?_⟩
  decide

end BootAnimation
